import Mathlib

/-!
Verification development for the FeatherMaker interpolation core
(`src/FeatherMaker.py`).

The Python module's reusable core is shallowly embedded here:

* Python floats are modelled as rationals (`ℚ`); Python ints as `ℤ`.
  A Python numeric value is a `PyNum` (an int or a float), since the
  module's `lerp` dispatches on `isinstance(a, float)`.
* Exceptions (`KeyError`, `AttributeError`, `ValueError`) are modelled
  with `Except PyErr`.
* `lerp(a, b, t)` (module level), `LineGraph` (`__init__`,
  `point_locations`, `get`, `set`, `lerp`), `BarbParameters`
  (`__init__`, `lerp`) and the parameter-resolution loop of
  `make_barb_curves` are translated definition by definition; the Maya
  scene calls (`cmd.*`), which only consume resolved values, are out of
  scope as external collaborators.
-/

/-- The Python exceptions the embedded core can raise. -/
inductive PyErr where
  | keyError : PyErr
  | attributeError : PyErr
  | valueError : PyErr
deriving DecidableEq

/-- A Python number: an `int` or a `float` (floats modelled as `ℚ`). -/
inductive PyNum where
  | int : ℤ → PyNum
  | float : ℚ → PyNum
deriving DecidableEq

/-- Python `float(x)` on a number. -/
def PyNum.toFloat : PyNum → ℚ
  | .int n => (n : ℚ)
  | .float x => x

/-- The scalar branch of the module-level `lerp`: `(b - a) * t + a`. -/
def scalarLerp (a b t : ℚ) : ℚ := (b - a) * t + a

/-- Module-level `lerp` applied to two Python numbers: both floats give
the scalar formula; otherwise `a.lerp(b, t)` is an `AttributeError`
since numbers have no `lerp` method. -/
def PyNum.lerp : PyNum → PyNum → ℚ → Except PyErr PyNum
  | .float x, .float y, t => .ok (.float (scalarLerp x y t))
  | _, _, _ => .error .attributeError

/-- `BarbParameters` after `__init__`: `length` has been coerced with
`float(...)`, the two angles are stored exactly as passed, and
`position` is whatever object `sorted([0, float(position), 1])[1]`
returns — the coerced float when the input is within `[0, 1]`, but the
*int* literal `0` or `1` when the input is strictly out of range
(Python's `sorted` returns the original list objects). -/
structure BarbParameters where
  position : PyNum
  length : ℚ
  start_angle : PyNum
  end_angle : PyNum
deriving DecidableEq

/-- The clamp in `BarbParameters.__init__`:
`sorted([0, float(position), 1])[1]`, over the heterogeneous Python
list `[0, float(position), 1]` whose first and last elements are int
literals.  `sorted` compares by numeric value and is stable, as is
`List.insertionSort`; the median is the int `0` (resp. `1`) when the
float is strictly below `0` (resp. strictly above `1`), and the float
itself otherwise. -/
def clampMedian (p : ℚ) : PyNum :=
  (List.insertionSort (fun a b : PyNum => a.toFloat ≤ b.toFloat)
    [.int 0, .float p, .int 1]).getD 1 (.int 0)

/-- `BarbParameters.__init__`. -/
def BarbParameters.make (position len start_angle end_angle : PyNum) :
    BarbParameters :=
  { position := clampMedian position.toFloat
    length := len.toFloat
    start_angle := start_angle
    end_angle := end_angle }

/-- `BarbParameters.lerp`: blend every field with the module-level
`lerp` (argument evaluation order: position, length, start angle, end
angle) and rebuild through the constructor.  The length blend is
between two floats and cannot fail; the position blend fails with an
`AttributeError` when either stored position is the clamped int `0` or
`1`, and the angle blends fail whenever an operand is not a float. -/
def BarbParameters.lerp (a b : BarbParameters) (t : ℚ) :
    Except PyErr BarbParameters := do
  let p ← PyNum.lerp a.position b.position t
  let l ← PyNum.lerp (.float a.length) (.float b.length) t
  let sa ← PyNum.lerp a.start_angle b.start_angle t
  let ea ← PyNum.lerp a.end_angle b.end_angle t
  .ok (BarbParameters.make p l sa ea)

/-- A value stored in a `LineGraph`: a Python number or a
`BarbParameters` record. -/
inductive Value where
  | num : PyNum → Value
  | barb : BarbParameters → Value
deriving DecidableEq

/-- Module-level `lerp` on stored values: two floats take the scalar
branch, any other number on the left has no `lerp` method
(`AttributeError`), two records delegate to `BarbParameters.lerp`, and
a record blended against a number fails inside `BarbParameters.lerp`
when `other.position` is accessed (`AttributeError`). -/
def Value.lerp : Value → Value → ℚ → Except PyErr Value
  | .num (.float x), .num (.float y), t => .ok (.num (.float (scalarLerp x y t)))
  | .num _, _, _ => .error .attributeError
  | .barb a, .barb b, t => (BarbParameters.lerp a b t).map Value.barb
  | .barb _, .num _, _ => .error .attributeError

/-- The `LineGraph` state: its private `__points` dict, modelled as an
insertion-ordered association list. -/
structure LineGraph where
  points : List (ℚ × Value)
deriving DecidableEq

/-- The keys of a points dict. -/
def keysOf (pts : List (ℚ × Value)) : List ℚ := pts.map Prod.fst

/-- Python dict lookup `pts[q]` (as an `Option`). -/
def lookupKey : List (ℚ × Value) → ℚ → Option Value
  | [], _ => none
  | (k, v) :: rest, q => if k = q then some v else lookupKey rest q

/-- Python dict assignment `pts[k] = v`: overwrite in place, or append
a new entry. -/
def setKey : List (ℚ × Value) → ℚ → Value → List (ℚ × Value)
  | [], k, v => [(k, v)]
  | (k', v') :: rest, k, v =>
      if k' = k then (k, v) :: rest else (k', v') :: setKey rest k v

/-- `if k not in points: points[k] = 0.0` from `LineGraph.__init__`. -/
def insertDefault (k : ℚ) (pts : List (ℚ × Value)) : List (ℚ × Value) :=
  if k ∈ keysOf pts then pts else setKey pts k (.num (.float 0))

/-- The dict comprehension `{float(key): value for key, value in
points.items()}` from `LineGraph.__init__` (keys are already rationals
in the model; duplicates resolve to the last occurrence as in a
dict). -/
def dictOfEntries (entries : List (ℚ × Value)) : List (ℚ × Value) :=
  entries.foldl (fun acc kv => setKey acc kv.1 kv.2) []

/-- `LineGraph.__init__`: build the dict from the supplied entries,
then insert `0.0` and `1.0` with the scalar value `0.0` when absent
(first the `0.0` check, then the `1.0` check, as in the source). -/
def LineGraph.init (entries : List (ℚ × Value)) : LineGraph :=
  ⟨insertDefault 1 (insertDefault 0 (dictOfEntries entries))⟩

/-- `LineGraph.point_locations`: the keys in ascending order. -/
def LineGraph.point_locations (g : LineGraph) : List ℚ :=
  List.insertionSort (· ≤ ·) (keysOf g.points)

/-- The scan `for x in range(1, len(parameters))` inside
`LineGraph.get`, walking adjacent pairs of the sorted key list; falling
off the end is the final `raise KeyError`. -/
def getLoop (pts : List (ℚ × Value)) (p : ℚ) : List ℚ → Except PyErr Value
  | low :: high :: rest =>
      if p ≤ high then
        match lookupKey pts low, lookupKey pts high with
        | some vl, some vh => Value.lerp vl vh ((p - low) / (high - low))
        | _, _ => .error .keyError
      else getLoop pts p (high :: rest)
  | _ => .error .keyError

/-- `LineGraph.get`: exact hit returns the stored value, otherwise the
interpolation scan runs. -/
def LineGraph.get (g : LineGraph) (p : ℚ) : Except PyErr Value :=
  match lookupKey g.points p with
  | some v => .ok v
  | none => getLoop g.points p g.point_locations

/-- `LineGraph.set`: store at the key when `0 ≤ p ≤ 1`, else
`ValueError`. -/
def LineGraph.set (g : LineGraph) (p : ℚ) (v : Value) :
    Except PyErr LineGraph :=
  if 0 ≤ p ∧ p ≤ 1 then .ok ⟨setKey g.points p v⟩ else .error .valueError

/-- The loop body of `LineGraph.lerp`:
`result[point] = lerp(self[point], other[point], t)` over the
concatenated location lists. -/
def lerpLoop (g other : LineGraph) (t : ℚ) :
    LineGraph → List ℚ → Except PyErr LineGraph
  | res, [] => .ok res
  | res, point :: rest => do
      let a ← g.get point
      let b ← other.get point
      let v ← Value.lerp a b t
      let res1 ← res.set point v
      lerpLoop g other t res1 rest

/-- `LineGraph.lerp`: start from a fresh default graph and assign the
blended value at every location of either input. -/
def LineGraph.lerp (g other : LineGraph) (t : ℚ) : Except PyErr LineGraph :=
  lerpLoop g other t (LineGraph.init [])
    (g.point_locations ++ other.point_locations)

/-- The parameter-resolution loop of `make_barb_curves`: for each index
it queries the graph at `float(i) / denom` and collects the results in
order (an exception aborts the run). -/
def resolveLoop (parameters : LineGraph) (denom : ℚ) :
    List ℕ → Except PyErr (List Value)
  | [] => .ok []
  | i :: rest => do
      let v ← parameters.get ((i : ℚ) / denom)
      let vs ← resolveLoop parameters denom rest
      .ok (v :: vs)

/-- The core of `make_barb_curves`: `count = len(selection)` and, for
`i in range(count)`, the barb record is the graph queried at
`float(i) / max(count - 1, 1)`.  The anchors themselves only provide
world positions for the generated geometry, never the resolved
parameters, so they enter only through their count. -/
def make_barb_curves {A : Type} (selection : List A)
    (parameters : LineGraph) : Except PyErr (List Value) :=
  resolveLoop parameters ((max ((selection.length : ℤ) - 1) 1 : ℤ) : ℚ)
    (List.range selection.length)

/-- The normalized positions `i / max(count - 1, 1)` the driver uses. -/
def samplePositions (count : ℕ) : List ℚ :=
  (List.range count).map
    (fun i : ℕ => (i : ℚ) / ((max ((count : ℤ) - 1) 1 : ℤ) : ℚ))

/-- A record is well formed when its position, *if it is a float*,
lies in `[0, 1]`.  Every record built by the constructor is: `__init__`
stores either an in-range float or a clamped int. -/
def BarbParameters.wf (b : BarbParameters) : Prop :=
  ∀ x : ℚ, b.position = .float x → 0 ≤ x ∧ x ≤ 1

/-- A stored value is well formed when any record in it is. -/
def Value.wf : Value → Prop
  | .num _ => True
  | .barb b => b.wf

theorem lookupKey_eq_none_iff (pts : List (ℚ × Value)) (q : ℚ) :
    lookupKey pts q = none ↔ q ∉ keysOf pts := by
  induction pts with
  | nil => simp [lookupKey, keysOf]
  | cons kv rest ih =>
      obtain ⟨k, v⟩ := kv
      by_cases h : k = q
      · subst h
        simp [lookupKey, keysOf]
      · simp only [lookupKey, if_neg h, keysOf, List.map_cons, List.mem_cons,
          not_or, ih]
        constructor
        · intro hn
          exact ⟨fun hq => h hq.symm, hn⟩
        · intro hn
          exact hn.2

theorem lookupKey_isSome_of_mem (pts : List (ℚ × Value)) (q : ℚ)
    (h : q ∈ keysOf pts) : ∃ v, lookupKey pts q = some v := by
  cases hl : lookupKey pts q with
  | none => exact absurd h ((lookupKey_eq_none_iff pts q).mp hl)
  | some v => exact ⟨v, rfl⟩

theorem lookupKey_mem (pts : List (ℚ × Value)) (q : ℚ) (v : Value)
    (h : lookupKey pts q = some v) : (q, v) ∈ pts := by
  induction pts with
  | nil => simp [lookupKey] at h
  | cons kv rest ih =>
      obtain ⟨k, w⟩ := kv
      by_cases hk : k = q
      · subst hk
        have hw : w = v := by simpa [lookupKey] using h
        subst hw
        exact List.mem_cons_self _ _
      · simp only [lookupKey, if_neg hk] at h
        exact List.mem_cons_of_mem _ (ih h)

theorem mem_keysOf_setKey (pts : List (ℚ × Value)) (k q : ℚ) (v : Value) :
    q ∈ keysOf (setKey pts k v) ↔ q = k ∨ q ∈ keysOf pts := by
  induction pts with
  | nil => simp [setKey, keysOf]
  | cons kv rest ih =>
      obtain ⟨k', v'⟩ := kv
      by_cases h : k' = k
      · subst h
        simp [setKey, keysOf]
        try tauto
      · simp [setKey, keysOf, h] at ih ⊢
        try tauto

theorem lookupKey_setKey_self (pts : List (ℚ × Value)) (k : ℚ) (v : Value) :
    lookupKey (setKey pts k v) k = some v := by
  induction pts with
  | nil => simp [setKey, lookupKey]
  | cons kv rest ih =>
      obtain ⟨k', v'⟩ := kv
      by_cases h : k' = k <;> simp [setKey, lookupKey, h, ih]

theorem lookupKey_setKey_ne (pts : List (ℚ × Value)) (k q : ℚ) (v : Value)
    (h : q ≠ k) : lookupKey (setKey pts k v) q = lookupKey pts q := by
  induction pts with
  | nil =>
      simp only [setKey, lookupKey]
      rw [if_neg (Ne.symm h)]
  | cons kv rest ih =>
      obtain ⟨k', v'⟩ := kv
      by_cases hk : k' = k
      · subst hk
        simp only [setKey, if_pos rfl, lookupKey]
        rw [if_neg (Ne.symm h), if_neg (Ne.symm h)]
      · simp only [setKey, if_neg hk, lookupKey]
        by_cases hq : k' = q
        · rw [if_pos hq, if_pos hq]
        · rw [if_neg hq, if_neg hq, ih]

theorem mem_point_locations (g : LineGraph) (q : ℚ) :
    q ∈ g.point_locations ↔ q ∈ keysOf g.points :=
  (List.perm_insertionSort _ _).mem_iff

theorem sorted_point_locations (g : LineGraph) :
    g.point_locations.Sorted (· ≤ ·) :=
  List.sorted_insertionSort _ _

theorem nodup_point_locations (g : LineGraph)
    (h : (keysOf g.points).Nodup) : g.point_locations.Nodup :=
  (List.perm_insertionSort _ _).nodup_iff.mpr h

theorem sorted_lt_point_locations (g : LineGraph)
    (h : (keysOf g.points).Nodup) : g.point_locations.Sorted (· < ·) :=
  ((sorted_point_locations g).and (nodup_point_locations g h)).imp
    (fun hx => lt_of_le_of_ne hx.1 hx.2)

/-- The value the scan returns once it stops at the pair
`(low, high)`. -/
def bracketResult (pts : List (ℚ × Value)) (p low high : ℚ) :
    Except PyErr Value :=
  match lookupKey pts low, lookupKey pts high with
  | some vl, some vh => Value.lerp vl vh ((p - low) / (high - low))
  | _, _ => .error .keyError

theorem getLoop_bracket (pts : List (ℚ × Value)) (p low high : ℚ) :
    ∀ l : List ℚ, l.Sorted (· < ·) → low ∈ l → high ∈ l →
    low < p → p ≤ high →
    (∀ k ∈ l, k < p → k ≤ low) → (∀ k ∈ l, p ≤ k → high ≤ k) →
    getLoop pts p l = bracketResult pts p low high := by
  intro l
  induction l with
  | nil => intro _ hlow; cases hlow
  | cons a rest ih =>
      intro hs hlow hhigh hlp hph hmaxlow hminhigh
      cases rest with
      | nil =>
          rcases List.mem_cons.mp hlow with rfl | hl
          · rcases List.mem_cons.mp hhigh with heq | hh
            · exact absurd (hlp.trans_le (heq ▸ hph)) (lt_irrefl _)
            · cases hh
          · cases hl
      | cons b rest1 =>
          have hab : a < b := List.rel_of_sorted_cons hs b (List.mem_cons_self _ _)
          by_cases hpb : p ≤ b
          · have hhigh_eq : high = b := by
              rcases List.mem_cons.mp hhigh with rfl | hh
              · exfalso
                rcases List.mem_cons.mp hlow with rfl | hl
                · exact absurd (hlp.trans_le hph) (lt_irrefl _)
                · have hlt : high < low := List.rel_of_sorted_cons hs low hl
                  exact absurd ((hph.trans_lt hlt).trans hlp) (lt_irrefl _)
              · rcases List.mem_cons.mp hh with rfl | hh1
                · rfl
                · exfalso
                  have hbh : b < high :=
                    List.rel_of_sorted_cons hs.of_cons high hh1
                  have hhb : high ≤ b :=
                    hminhigh b (List.mem_cons_of_mem _ (List.mem_cons_self _ _)) hpb
                  exact absurd (hhb.trans_lt hbh) (lt_irrefl _)
            have hap : a < p := by
              by_contra hna
              push_neg at hna
              have hha : high ≤ a := hminhigh a (List.mem_cons_self _ _) hna
              rw [hhigh_eq] at hha
              exact absurd (hha.trans_lt hab) (lt_irrefl _)
            have hlow_eq : low = a := by
              rcases List.mem_cons.mp hlow with rfl | hl
              · rfl
              · exfalso
                have hbl : b ≤ low := by
                  rcases List.mem_cons.mp hl with rfl | hl1
                  · exact le_refl _
                  · exact (List.rel_of_sorted_cons hs.of_cons low hl1).le
                exact absurd ((hpb.trans hbl).trans_lt hlp) (lt_irrefl _)
            subst hhigh_eq
            subst hlow_eq
            simp only [getLoop, if_pos hpb]
            rfl
          · push_neg at hpb
            have hstep : getLoop pts p (a :: b :: rest1) =
                getLoop pts p (b :: rest1) := by
              simp only [getLoop, if_neg (not_le.mpr hpb)]
            rw [hstep]
            have hlowmem : low ∈ b :: rest1 := by
              rcases List.mem_cons.mp hlow with rfl | hl
              · exfalso
                have : b ≤ low :=
                  hmaxlow b (List.mem_cons_of_mem _ (List.mem_cons_self _ _)) hpb
                exact absurd (this.trans_lt hab) (lt_irrefl _)
              · exact hl
            have hhighmem : high ∈ b :: rest1 := by
              rcases List.mem_cons.mp hhigh with rfl | hh
              · exfalso
                exact absurd ((hph.trans_lt hab).trans hpb) (lt_irrefl _)
              · exact hh
            exact ih hs.of_cons hlowmem hhighmem hlp hph
              (fun k hk hkp => hmaxlow k (List.mem_cons_of_mem _ hk) hkp)
              (fun k hk hkp => hminhigh k (List.mem_cons_of_mem _ hk) hkp)

theorem getLoop_all_lt (pts : List (ℚ × Value)) (p : ℚ) :
    ∀ l : List ℚ, (∀ k ∈ l, k < p) →
    getLoop pts p l = .error .keyError := by
  intro l
  induction l with
  | nil => intro _; rfl
  | cons a rest ih =>
      intro hall
      cases rest with
      | nil => rfl
      | cons b rest1 =>
          have hb : b < p := hall b (List.mem_cons_of_mem _ (List.mem_cons_self _ _))
          simp only [getLoop, if_neg (not_le.mpr hb)]
          exact ih (fun k hk => hall k (List.mem_cons_of_mem _ hk))

theorem get_eq_of_lookup_none (g : LineGraph) (p : ℚ)
    (h : lookupKey g.points p = none) :
    g.get p = getLoop g.points p g.point_locations := by
  unfold LineGraph.get
  rw [h]

theorem get_eq_of_lookup_some (g : LineGraph) (p : ℚ) (v : Value)
    (h : lookupKey g.points p = some v) : g.get p = .ok v := by
  unfold LineGraph.get
  rw [h]

/-- C1: for every graph `g` and every position `p ∈ [0, 1]` that is not
an existing key, `g.get p` returns `blend(v_low, v_high,
(p - low) / (high - low))`, where `high` is the smallest key `≥ p`,
`low` the key immediately preceding it (the greatest key `< p`, which
under these hypotheses is exactly the predecessor of `high` in sorted
order), and `v_low`, `v_high` the stored values there. -/
theorem C1_get_interpolates (g : LineGraph) (p low high : ℚ) (vl vh : Value)
    (hnd : (keysOf g.points).Nodup)
    (hp0 : 0 ≤ p) (hp1 : p ≤ 1)
    (hnk : p ∉ keysOf g.points)
    (hhmem : high ∈ keysOf g.points) (hph : p ≤ high)
    (hhleast : ∀ k ∈ keysOf g.points, p ≤ k → high ≤ k)
    (hlmem : low ∈ keysOf g.points) (hlp : low < p)
    (hlgreat : ∀ k ∈ keysOf g.points, k < p → k ≤ low)
    (hvl : lookupKey g.points low = some vl)
    (hvh : lookupKey g.points high = some vh) :
    g.get p = Value.lerp vl vh ((p - low) / (high - low)) := by
  have hnone : lookupKey g.points p = none :=
    (lookupKey_eq_none_iff _ _).mpr hnk
  rw [get_eq_of_lookup_none g p hnone]
  rw [getLoop_bracket g.points p low high g.point_locations
    (sorted_lt_point_locations g hnd)
    ((mem_point_locations g low).mpr hlmem)
    ((mem_point_locations g high).mpr hhmem)
    hlp hph
    (fun k hk hkp => hlgreat k ((mem_point_locations g k).mp hk) hkp)
    (fun k hk hkp => hhleast k ((mem_point_locations g k).mp hk) hkp)]
  simp only [bracketResult, hvl, hvh]

/-- Witness for C1 at Scenario B: the graph
`{0.0: 0.0, 0.5: 10.0, 1.0: 0.0}` has `get(0.25) == 5.0`, obtained by
instantiating `C1_get_interpolates` at `p = 1/4`, `low = 0`,
`high = 1/2`. -/
theorem C1_witness :
    (LineGraph.init [(0, .num (.float 0)), (1/2, .num (.float 10)),
      (1, .num (.float 0))]).get (1/4) = .ok (.num (.float 5)) := by
  have h := C1_get_interpolates
    (LineGraph.init [(0, .num (.float 0)), (1/2, .num (.float 10)),
      (1, .num (.float 0))])
    (1/4) 0 (1/2) (.num (.float 0)) (.num (.float 10))
    (by norm_num [LineGraph.init, dictOfEntries, insertDefault, List.foldl, keysOf, setKey])
    (by norm_num) (by norm_num)
    (by norm_num [LineGraph.init, dictOfEntries, insertDefault, List.foldl, keysOf, setKey])
    (by norm_num [LineGraph.init, dictOfEntries, insertDefault, List.foldl, keysOf, setKey])
    (by norm_num)
    (by intro k hk
        norm_num [LineGraph.init, dictOfEntries, insertDefault, List.foldl, keysOf,
          setKey] at hk
        rcases hk with rfl | rfl | rfl <;> norm_num)
    (by norm_num [LineGraph.init, dictOfEntries, insertDefault, List.foldl, keysOf, setKey])
    (by norm_num)
    (by intro k hk
        norm_num [LineGraph.init, dictOfEntries, insertDefault, List.foldl, keysOf,
          setKey] at hk
        rcases hk with rfl | rfl | rfl <;> norm_num)
    (by norm_num [LineGraph.init, dictOfEntries, insertDefault, List.foldl, lookupKey, keysOf, setKey])
    (by norm_num [LineGraph.init, dictOfEntries, insertDefault, List.foldl, lookupKey, keysOf, setKey])
  rw [h]
  norm_num [Value.lerp, scalarLerp]

theorem mem_keysOf_insertDefault (k q : ℚ) (pts : List (ℚ × Value)) :
    q ∈ keysOf (insertDefault k pts) ↔ q = k ∨ q ∈ keysOf pts := by
  unfold insertDefault
  by_cases h : k ∈ keysOf pts
  · rw [if_pos h]
    constructor
    · exact Or.inr
    · rintro (rfl | hq)
      · exact h
      · exact hq
  · rw [if_neg h]
    exact mem_keysOf_setKey pts k q _

theorem set_ok_points (g : LineGraph) (p : ℚ) (v : Value) (r : LineGraph)
    (h : g.set p v = .ok r) :
    (0 ≤ p ∧ p ≤ 1) ∧ r.points = setKey g.points p v := by
  unfold LineGraph.set at h
  by_cases hc : 0 ≤ p ∧ p ≤ 1
  · rw [if_pos hc] at h
    refine ⟨hc, ?_⟩
    cases h
    rfl
  · rw [if_neg hc] at h
    cases h

theorem set_ok_of_range (g : LineGraph) (p : ℚ) (v : Value)
    (h0 : 0 ≤ p) (h1 : p ≤ 1) :
    g.set p v = .ok ⟨setKey g.points p v⟩ := by
  unfold LineGraph.set
  rw [if_pos ⟨h0, h1⟩]

theorem bind_ok_eq {α β : Type} (a : α) (f : α → Except PyErr β) :
    (Except.ok a >>= f) = f a := rfl

theorem bind_error_eq {α β : Type} (e : PyErr) (f : α → Except PyErr β) :
    ((Except.error e : Except PyErr α) >>= f) = Except.error e := rfl

theorem lerpLoop_cons_ok (g other : LineGraph) (t : ℚ) (res r : LineGraph)
    (pt : ℚ) (rest : List ℚ)
    (h : lerpLoop g other t res (pt :: rest) = .ok r) :
    ∃ a b v res1, g.get pt = .ok a ∧ other.get pt = .ok b ∧
      Value.lerp a b t = .ok v ∧ res.set pt v = .ok res1 ∧
      lerpLoop g other t res1 rest = .ok r := by
  simp only [lerpLoop] at h
  cases hga : g.get pt with
  | error e =>
      simp only [hga, bind_error_eq] at h
      exact Except.noConfusion h
  | ok a =>
      simp only [hga, bind_ok_eq] at h
      cases hgb : other.get pt with
      | error e =>
          simp only [hgb, bind_error_eq] at h
          exact Except.noConfusion h
      | ok b =>
          simp only [hgb, bind_ok_eq] at h
          cases hv : Value.lerp a b t with
          | error e =>
              simp only [hv, bind_error_eq] at h
              exact Except.noConfusion h
          | ok v =>
              simp only [hv, bind_ok_eq] at h
              cases hset : res.set pt v with
              | error e =>
                  simp only [hset, bind_error_eq] at h
                  exact Except.noConfusion h
              | ok res1 =>
                  simp only [hset, bind_ok_eq] at h
                  exact ⟨a, b, v, res1, rfl, rfl, hv, hset, h⟩

theorem lerpLoop_nil_ok (g other : LineGraph) (t : ℚ) (res r : LineGraph)
    (h : lerpLoop g other t res [] = .ok r) : res = r := by
  simpa [lerpLoop] using h

theorem lerpLoop_lookup (g other : LineGraph) (t : ℚ) :
    ∀ (L : List ℚ) (res r : LineGraph),
    lerpLoop g other t res L = .ok r →
    ∀ q, (q ∈ L → ∃ a b v, g.get q = .ok a ∧ other.get q = .ok b ∧
            Value.lerp a b t = .ok v ∧ lookupKey r.points q = some v) ∧
         (q ∉ L → lookupKey r.points q = lookupKey res.points q) := by
  intro L
  induction L with
  | nil =>
      intro res r h q
      obtain rfl := lerpLoop_nil_ok g other t res r h
      exact ⟨fun hq => absurd hq (List.not_mem_nil q), fun _ => rfl⟩
  | cons pt rest ih =>
      intro res r h q
      obtain ⟨a, b, v, res1, hga, hgb, hv, hset, hrest⟩ :=
        lerpLoop_cons_ok g other t res r pt rest h
      obtain ⟨hrange, hpts⟩ := set_ok_points res pt v res1 hset
      constructor
      · intro hq
        rcases List.mem_cons.mp hq with rfl | hq1
        · by_cases hq2 : q ∈ rest
          · exact (ih res1 r hrest q).1 hq2
          · have hlk := (ih res1 r hrest q).2 hq2
            refine ⟨a, b, v, hga, hgb, hv, ?_⟩
            rw [hlk, hpts]
            exact lookupKey_setKey_self res.points q v
        · exact (ih res1 r hrest q).1 hq1
      · intro hq
        have hq1 : q ≠ pt := fun hh => hq (hh ▸ List.mem_cons_self _ _)
        have hq2 : q ∉ rest := fun hh => hq (List.mem_cons_of_mem _ hh)
        rw [(ih res1 r hrest q).2 hq2, hpts,
          lookupKey_setKey_ne res.points pt q v hq1]

theorem lerpLoop_mem_iff (g other : LineGraph) (t : ℚ) :
    ∀ (L : List ℚ) (res r : LineGraph),
    lerpLoop g other t res L = .ok r →
    ∀ q, q ∈ keysOf r.points ↔ q ∈ L ∨ q ∈ keysOf res.points := by
  intro L
  induction L with
  | nil =>
      intro res r h q
      obtain rfl := lerpLoop_nil_ok g other t res r h
      simp
  | cons pt rest ih =>
      intro res r h q
      obtain ⟨a, b, v, res1, hga, hgb, hv, hset, hrest⟩ :=
        lerpLoop_cons_ok g other t res r pt rest h
      obtain ⟨hrange, hpts⟩ := set_ok_points res pt v res1 hset
      rw [ih res1 r hrest q, hpts, mem_keysOf_setKey, List.mem_cons]
      tauto

theorem mem_keysOf_init_zero (entries : List (ℚ × Value)) :
    0 ∈ keysOf (LineGraph.init entries).points :=
  (mem_keysOf_insertDefault 1 0 _).mpr
    (Or.inr ((mem_keysOf_insertDefault 0 0 _).mpr (Or.inl rfl)))

theorem mem_keysOf_init_one (entries : List (ℚ × Value)) :
    1 ∈ keysOf (LineGraph.init entries).points :=
  (mem_keysOf_insertDefault 1 1 _).mpr (Or.inl rfl)

theorem init_nil_points :
    (LineGraph.init []).points =
      [(0, .num (.float 0)), (1, .num (.float 0))] := by
  norm_num [LineGraph.init, dictOfEntries, insertDefault, keysOf, setKey, List.foldl]

theorem get_of_mem_keys (g : LineGraph) (q : ℚ)
    (h : q ∈ keysOf g.points) :
    ∃ v, lookupKey g.points q = some v ∧ g.get q = .ok v := by
  obtain ⟨v, hv⟩ := lookupKey_isSome_of_mem g.points q h
  exact ⟨v, hv, get_eq_of_lookup_some g q v hv⟩

theorem lookupKey_insertDefault_self_of_not_mem (k : ℚ)
    (pts : List (ℚ × Value)) (h : k ∉ keysOf pts) :
    lookupKey (insertDefault k pts) k = some (.num (.float 0)) := by
  unfold insertDefault
  rw [if_neg h]
  exact lookupKey_setKey_self pts k _

theorem lookupKey_insertDefault_ne (k q : ℚ) (pts : List (ℚ × Value))
    (h : q ≠ k) :
    lookupKey (insertDefault k pts) q = lookupKey pts q := by
  unfold insertDefault
  split_ifs with hmem
  · rfl
  · exact lookupKey_setKey_ne pts k q _ h

/-- C2: every graph contains the keys `0.0` and `1.0` at all times —
construction inserts them *with the scalar value `0.0`* when they are
absent from the supplied dict, `set` only adds keys, `lerp` produces a
graph that again contains both — and a graph queried at any existing
key (in particular `0.0` and `1.0`) returns the stored value without
interpolation. -/
theorem C2_zero_one_invariant :
    (∀ entries : List (ℚ × Value),
      0 ∈ keysOf (LineGraph.init entries).points ∧
      1 ∈ keysOf (LineGraph.init entries).points ∧
      (0 ∉ keysOf (dictOfEntries entries) →
        lookupKey (LineGraph.init entries).points 0 =
          some (.num (.float 0))) ∧
      (1 ∉ keysOf (dictOfEntries entries) →
        lookupKey (LineGraph.init entries).points 1 =
          some (.num (.float 0)))) ∧
    (∀ (g : LineGraph) (p : ℚ) (v : Value) (r : LineGraph),
      g.set p v = .ok r → ∀ q ∈ keysOf g.points, q ∈ keysOf r.points) ∧
    (∀ (g1 g2 : LineGraph) (t : ℚ) (r : LineGraph),
      g1.lerp g2 t = .ok r →
      0 ∈ keysOf r.points ∧ 1 ∈ keysOf r.points) ∧
    (∀ (g : LineGraph) (q : ℚ), q ∈ keysOf g.points →
      ∃ v, lookupKey g.points q = some v ∧ g.get q = .ok v) := by
  refine ⟨?_, ?_, ?_, ?_⟩
  · intro entries
    refine ⟨mem_keysOf_init_zero entries, mem_keysOf_init_one entries,
      ?_, ?_⟩
    · intro h0
      show lookupKey (insertDefault 1 (insertDefault 0
        (dictOfEntries entries))) 0 = some (.num (.float 0))
      rw [lookupKey_insertDefault_ne 1 0 _ (by norm_num)]
      exact lookupKey_insertDefault_self_of_not_mem 0 _ h0
    · intro h1
      show lookupKey (insertDefault 1 (insertDefault 0
        (dictOfEntries entries))) 1 = some (.num (.float 0))
      apply lookupKey_insertDefault_self_of_not_mem
      intro hc
      rcases (mem_keysOf_insertDefault 0 1 _).mp hc with h | h
      · exact absurd h (by norm_num)
      · exact h1 h
  · intro g p v r h q hq
    obtain ⟨hrange, hpts⟩ := set_ok_points g p v r h
    rw [hpts]
    exact (mem_keysOf_setKey g.points p q v).mpr (Or.inr hq)
  · intro g1 g2 t r h
    have hmem := lerpLoop_mem_iff g1 g2 t
      (g1.point_locations ++ g2.point_locations) (LineGraph.init []) r h
    constructor
    · exact (hmem 0).mpr (Or.inr (mem_keysOf_init_zero []))
    · exact (hmem 1).mpr (Or.inr (mem_keysOf_init_one []))
  · exact get_of_mem_keys

/-- Witness for C2 on concrete graphs: a graph built from
`{1/3: 7.0}` contains `0.0` and `1.0` and holds the scalar default
`0.0` at both; a `set` at `1/2` on the default graph keeps key `0.0`;
and `get 0.0` on the default graph returns the stored value. -/
theorem C2_witness :
    (0 ∈ keysOf (LineGraph.init [(1/3, .num (.float 7))]).points ∧
     1 ∈ keysOf (LineGraph.init [(1/3, .num (.float 7))]).points) ∧
    lookupKey (LineGraph.init [(1/3, .num (.float 7))]).points 0 =
      some (.num (.float 0)) ∧
    lookupKey (LineGraph.init [(1/3, .num (.float 7))]).points 1 =
      some (.num (.float 0)) ∧
    0 ∈ keysOf
      (⟨setKey (LineGraph.init []).points (1/2) (.num (.float 3))⟩ :
        LineGraph).points ∧
    (∃ v, lookupKey (LineGraph.init []).points 0 = some v ∧
      (LineGraph.init []).get 0 = .ok v) := by
  have h1 := C2_zero_one_invariant.1 [(1/3, .num (.float 7))]
  refine ⟨⟨h1.1, h1.2.1⟩, ?_, ?_, ?_, ?_⟩
  · exact h1.2.2.1
      (by norm_num [dictOfEntries, List.foldl, keysOf, setKey])
  · exact h1.2.2.2
      (by norm_num [dictOfEntries, List.foldl, keysOf, setKey])
  · exact C2_zero_one_invariant.2.1 (LineGraph.init []) (1/2)
      (.num (.float 3)) _
      (set_ok_of_range _ _ _ (by norm_num) (by norm_num)) 0
      (C2_zero_one_invariant.1 []).1
  · exact C2_zero_one_invariant.2.2.2 (LineGraph.init []) 0
      (C2_zero_one_invariant.1 []).1

theorem clampMedian_eq (p : ℚ) :
    clampMedian p =
      if p < 0 then .int 0 else if 1 < p then .int 1 else .float p := by
  unfold clampMedian
  rcases lt_or_le p 0 with h0 | h0
  · rw [if_pos h0]
    have hp1 : p ≤ 1 := h0.le.trans zero_le_one
    norm_num [List.insertionSort, List.orderedInsert, PyNum.toFloat,
      hp1, h0.not_le]
  · rw [if_neg (not_lt.mpr h0)]
    rcases lt_or_le 1 p with h1 | h1
    · rw [if_pos h1]
      norm_num [List.insertionSort, List.orderedInsert, PyNum.toFloat,
        h0, not_le.mpr h1]
    · rw [if_neg (not_lt.mpr h1)]
      norm_num [List.insertionSort, List.orderedInsert, PyNum.toFloat,
        h0, h1]

theorem clampMedian_toFloat (p : ℚ) :
    (clampMedian p).toFloat = max 0 (min p 1) := by
  rw [clampMedian_eq]
  split_ifs with h0 h1
  · simp only [PyNum.toFloat, Int.cast_zero]
    rw [min_eq_left (h0.le.trans zero_le_one), max_eq_left h0.le]
  · simp only [PyNum.toFloat, Int.cast_one]
    rw [min_eq_right h1.le, max_eq_right zero_le_one]
  · simp only [PyNum.toFloat]
    rw [min_eq_left (not_lt.mp h1), max_eq_right (not_lt.mp h0)]

theorem clampMedian_of_mem (p : ℚ) (h0 : 0 ≤ p) (h1 : p ≤ 1) :
    clampMedian p = .float p := by
  rw [clampMedian_eq, if_neg (not_lt.mpr h0), if_neg (not_lt.mpr h1)]

theorem clampMedian_float_inv (p x : ℚ) (h : clampMedian p = .float x) :
    x = p ∧ 0 ≤ x ∧ x ≤ 1 := by
  rw [clampMedian_eq] at h
  rcases lt_or_le p 0 with h0 | h0
  · rw [if_pos h0] at h
    exact absurd h (by simp)
  · rw [if_neg (not_lt.mpr h0)] at h
    rcases lt_or_le 1 p with h1 | h1
    · rw [if_pos h1] at h
      exact absurd h (by simp)
    · rw [if_neg (not_lt.mpr h1)] at h
      obtain rfl : p = x := PyNum.float.inj h
      exact ⟨rfl, h0, h1⟩

theorem clampMedian_lt_zero (p : ℚ) (h : p < 0) :
    clampMedian p = .int 0 := by
  rw [clampMedian_eq, if_pos h]

theorem clampMedian_gt_one (p : ℚ) (h : 1 < p) :
    clampMedian p = .int 1 := by
  rw [clampMedian_eq, if_neg (not_lt.mpr (zero_lt_one.trans h).le),
    if_pos h]

theorem scalarLerp_zero (a b : ℚ) : scalarLerp a b 0 = a := by
  simp [scalarLerp]

theorem scalarLerp_one (a b : ℚ) : scalarLerp a b 1 = b := by
  simp [scalarLerp]

theorem pyNumLerp_ok_inv (a b c : PyNum) (t : ℚ)
    (h : PyNum.lerp a b t = .ok c) :
    ∃ x y, a = .float x ∧ b = .float y ∧ c = .float (scalarLerp x y t) := by
  cases a with
  | int n => cases b <;> exact Except.noConfusion h
  | float x =>
      cases b with
      | int m => exact Except.noConfusion h
      | float y => exact ⟨x, y, rfl, rfl, (Except.ok.inj h).symm⟩

theorem pyNumLerp_float_float (x y t : ℚ) :
    PyNum.lerp (.float x) (.float y) t =
      .ok (.float (scalarLerp x y t)) := rfl

theorem pyNumLerp_error_inv (a b : PyNum) (t : ℚ) (e : PyErr)
    (h : PyNum.lerp a b t = .error e) : e = .attributeError := by
  cases a with
  | int n => cases b <;> exact (Except.error.inj h).symm
  | float x =>
      cases b with
      | int m => exact (Except.error.inj h).symm
      | float y => exact Except.noConfusion h

theorem barbLerp_ok_inv (A B : BarbParameters) (t : ℚ)
    (C : BarbParameters) (h : BarbParameters.lerp A B t = .ok C) :
    ∃ pa pb xa ya xb yb,
      A.position = .float pa ∧ B.position = .float pb ∧
      A.start_angle = .float xa ∧ B.start_angle = .float ya ∧
      A.end_angle = .float xb ∧ B.end_angle = .float yb ∧
      C = ⟨clampMedian (scalarLerp pa pb t),
           scalarLerp A.length B.length t,
           .float (scalarLerp xa ya t), .float (scalarLerp xb yb t)⟩ := by
  unfold BarbParameters.lerp at h
  cases hp : PyNum.lerp A.position B.position t with
  | error e =>
      simp only [hp, bind_error_eq] at h
      exact Except.noConfusion h
  | ok pv =>
      simp only [hp, bind_ok_eq, pyNumLerp_float_float] at h
      cases hsa : PyNum.lerp A.start_angle B.start_angle t with
      | error e =>
          simp only [hsa, bind_error_eq] at h
          exact Except.noConfusion h
      | ok sa =>
          simp only [hsa, bind_ok_eq] at h
          cases hea : PyNum.lerp A.end_angle B.end_angle t with
          | error e =>
              simp only [hea, bind_error_eq] at h
              exact Except.noConfusion h
          | ok ea =>
              simp only [hea, bind_ok_eq] at h
              obtain ⟨pa, pb, hPA, hPB, hp1⟩ := pyNumLerp_ok_inv _ _ _ _ hp
              obtain ⟨xa, ya, hA1, hB1, hsa1⟩ := pyNumLerp_ok_inv _ _ _ _ hsa
              obtain ⟨xb, yb, hA2, hB2, hea1⟩ := pyNumLerp_ok_inv _ _ _ _ hea
              refine ⟨pa, pb, xa, ya, xb, yb, hPA, hPB, hA1, hB1, hA2, hB2,
                ?_⟩
              rw [← Except.ok.inj h, hp1, hsa1, hea1]
              simp [BarbParameters.make, PyNum.toFloat]

theorem Value.lerp_ok_wf (a b v : Value) (t : ℚ)
    (h : Value.lerp a b t = .ok v) : Value.wf v := by
  cases a with
  | num na =>
      cases b with
      | num nb =>
          cases na with
          | int n => cases nb <;> exact Except.noConfusion h
          | float x =>
              cases nb with
              | int m => exact Except.noConfusion h
              | float y =>
                  rw [← Except.ok.inj h]
                  trivial
      | barb B => cases na <;> exact Except.noConfusion h
  | barb A =>
      cases b with
      | num nb => exact Except.noConfusion h
      | barb B =>
          simp only [Value.lerp] at h
          cases hL : BarbParameters.lerp A B t with
          | error e =>
              rw [hL] at h
              simp [Except.map] at h
          | ok C =>
              rw [hL] at h
              simp only [Except.map] at h
              rw [← Except.ok.inj h]
              obtain ⟨pa, pb, xa, ya, xb, yb, _, _, _, _, _, _, hC⟩ :=
                barbLerp_ok_inv A B t C hL
              rw [hC]
              intro x hx
              exact (clampMedian_float_inv _ _ hx).2

theorem Value.lerp_zero_ok (a b v : Value) (ha : Value.wf a)
    (h : Value.lerp a b 0 = .ok v) : v = a := by
  cases a with
  | num na =>
      cases b with
      | num nb =>
          cases na with
          | int n => cases nb <;> exact Except.noConfusion h
          | float x =>
              cases nb with
              | int m => exact Except.noConfusion h
              | float y =>
                  rw [← Except.ok.inj h, scalarLerp_zero]
      | barb B => cases na <;> exact Except.noConfusion h
  | barb A =>
      cases b with
      | num nb => exact Except.noConfusion h
      | barb B =>
          simp only [Value.lerp] at h
          cases hL : BarbParameters.lerp A B 0 with
          | error e =>
              rw [hL] at h
              simp [Except.map] at h
          | ok C =>
              rw [hL] at h
              simp only [Except.map] at h
              rw [← Except.ok.inj h]
              obtain ⟨pa, pb, xa, ya, xb, yb, hPA, hPB, hA1, hB1, hA2, hB2,
                hC⟩ := barbLerp_ok_inv A B 0 C hL
              rw [hC]
              have ha1 : BarbParameters.wf A := ha
              obtain ⟨hpa0, hpa1⟩ := ha1 pa hPA
              simp only [scalarLerp_zero]
              rw [clampMedian_of_mem pa hpa0 hpa1, ← hPA, ← hA1, ← hA2]

theorem Value.lerp_one_ok (a b v : Value) (hb : Value.wf b)
    (h : Value.lerp a b 1 = .ok v) : v = b := by
  cases a with
  | num na =>
      cases b with
      | num nb =>
          cases na with
          | int n => cases nb <;> exact Except.noConfusion h
          | float x =>
              cases nb with
              | int m => exact Except.noConfusion h
              | float y =>
                  rw [← Except.ok.inj h, scalarLerp_one]
      | barb B => cases na <;> exact Except.noConfusion h
  | barb A =>
      cases b with
      | num nb => exact Except.noConfusion h
      | barb B =>
          simp only [Value.lerp] at h
          cases hL : BarbParameters.lerp A B 1 with
          | error e =>
              rw [hL] at h
              simp [Except.map] at h
          | ok C =>
              rw [hL] at h
              simp only [Except.map] at h
              rw [← Except.ok.inj h]
              obtain ⟨pa, pb, xa, ya, xb, yb, hPA, hPB, hA1, hB1, hA2, hB2,
                hC⟩ := barbLerp_ok_inv A B 1 C hL
              rw [hC]
              have hb1 : BarbParameters.wf B := hb
              obtain ⟨hpb0, hpb1⟩ := hb1 pb hPB
              simp only [scalarLerp_one]
              rw [clampMedian_of_mem pb hpb0 hpb1, ← hPB, ← hB1, ← hB2]

theorem getLoop_ok_wf (pts : List (ℚ × Value)) (p : ℚ) :
    ∀ (l : List ℚ) (v : Value), getLoop pts p l = .ok v → Value.wf v := by
  intro l
  induction l with
  | nil => intro v h; exact Except.noConfusion h
  | cons a rest ih =>
      intro v h
      cases rest with
      | nil => exact Except.noConfusion h
      | cons b rest1 =>
          by_cases hpb : p ≤ b
          · simp only [getLoop, if_pos hpb] at h
            cases hl : lookupKey pts a <;> cases hh : lookupKey pts b <;>
              rw [hl, hh] at h <;>
              first
                | exact Except.noConfusion h
                | exact Value.lerp_ok_wf _ _ _ _ h
          · simp only [getLoop, if_neg hpb] at h
            exact ih v h

theorem get_ok_wf (g : LineGraph) (q : ℚ) (v : Value)
    (hstored : ∀ kv ∈ g.points, Value.wf kv.2)
    (h : g.get q = .ok v) : Value.wf v := by
  unfold LineGraph.get at h
  cases hl : lookupKey g.points q with
  | some w =>
      rw [hl] at h
      have hw : w = v := Except.ok.inj h
      subst hw
      exact hstored (q, w) (lookupKey_mem _ _ _ hl)
  | none =>
      rw [hl] at h
      exact getLoop_ok_wf g.points q g.point_locations v h

/-- C3: `g1.lerp g2 t` returns a graph whose key set is the union of
the two inputs' point locations, holding at every such key the blend
`blend(g1.get k, g2.get k, t)`; at `t = 0` the result evaluates at each
union key to `g1.get k`, and at `t = 1` to `g2.get k` (the endpoint
statements use the constructor invariant that stored records have
clamped positions).  The inputs are untouched: the result is built by
assignments on a fresh graph. -/
theorem C3_graph_lerp (g1 g2 : LineGraph) (t : ℚ) (r : LineGraph)
    (h0 : 0 ∈ keysOf g1.points) (h1 : 1 ∈ keysOf g1.points)
    (h : g1.lerp g2 t = .ok r) :
    (∀ q, q ∈ keysOf r.points ↔
      q ∈ keysOf g1.points ∨ q ∈ keysOf g2.points) ∧
    (∀ q, q ∈ keysOf g1.points ∨ q ∈ keysOf g2.points →
      ∃ a b v, g1.get q = .ok a ∧ g2.get q = .ok b ∧
        Value.lerp a b t = .ok v ∧ lookupKey r.points q = some v ∧
        r.get q = .ok v) ∧
    (t = 0 → (∀ kv ∈ g1.points, Value.wf kv.2) →
      ∀ q, q ∈ keysOf g1.points ∨ q ∈ keysOf g2.points →
        ∃ a, g1.get q = .ok a ∧ r.get q = .ok a) ∧
    (t = 1 → (∀ kv ∈ g2.points, Value.wf kv.2) →
      ∀ q, q ∈ keysOf g1.points ∨ q ∈ keysOf g2.points →
        ∃ b, g2.get q = .ok b ∧ r.get q = .ok b) := by
  have hL : ∀ q, q ∈ g1.point_locations ++ g2.point_locations ↔
      q ∈ keysOf g1.points ∨ q ∈ keysOf g2.points := by
    intro q
    rw [List.mem_append, mem_point_locations, mem_point_locations]
  have h' : lerpLoop g1 g2 t (LineGraph.init [])
      (g1.point_locations ++ g2.point_locations) = .ok r := h
  have hmain := lerpLoop_lookup g1 g2 t
    (g1.point_locations ++ g2.point_locations) (LineGraph.init []) r h'
  have hmem := lerpLoop_mem_iff g1 g2 t
    (g1.point_locations ++ g2.point_locations) (LineGraph.init []) r h'
  have hpart2 : ∀ q, q ∈ keysOf g1.points ∨ q ∈ keysOf g2.points →
      ∃ a b v, g1.get q = .ok a ∧ g2.get q = .ok b ∧
        Value.lerp a b t = .ok v ∧ lookupKey r.points q = some v ∧
        r.get q = .ok v := by
    intro q hq
    obtain ⟨a, b, v, hga, hgb, hv, hlk⟩ := (hmain q).1 ((hL q).mpr hq)
    exact ⟨a, b, v, hga, hgb, hv, hlk, get_eq_of_lookup_some r q v hlk⟩
  refine ⟨?_, hpart2, ?_, ?_⟩
  · intro q
    rw [hmem q]
    constructor
    · rintro (hq | hq)
      · exact (hL q).mp hq
      · rw [init_nil_points] at hq
        simp [keysOf] at hq
        rcases hq with rfl | rfl
        · exact Or.inl h0
        · exact Or.inl h1
    · intro hq
      exact Or.inl ((hL q).mpr hq)
  · rintro rfl hwf q hq
    obtain ⟨a, b, v, hga, hgb, hv, hlk, hget⟩ := hpart2 q hq
    have ha : Value.wf a := get_ok_wf g1 q a hwf hga
    have hva : v = a := Value.lerp_zero_ok a b v ha hv
    exact ⟨a, hga, hva ▸ hget⟩
  · rintro rfl hwf q hq
    obtain ⟨a, b, v, hga, hgb, hv, hlk, hget⟩ := hpart2 q hq
    have hb : Value.wf b := get_ok_wf g2 q b hwf hgb
    have hvb : v = b := Value.lerp_one_ok a b v hb hv
    exact ⟨b, hgb, hvb ▸ hget⟩

/-- Witness for C3: blending the default graph with itself at `t = 0`
produces the graph with points `{0: 0.0, 1: 0.0}` whose key set is the
union of the inputs' keys and whose value at key `0` is the first
input's value there. -/
theorem C3_witness :
    (LineGraph.init []).lerp (LineGraph.init []) 0 =
      .ok ⟨[(0, .num (.float 0)), (1, .num (.float 0))]⟩ ∧
    (∀ q, q ∈ keysOf
        ((⟨[(0, .num (.float 0)), (1, .num (.float 0))]⟩ :
          LineGraph)).points ↔
      q ∈ keysOf (LineGraph.init []).points ∨
      q ∈ keysOf (LineGraph.init []).points) ∧
    (∃ a, (LineGraph.init []).get 0 = .ok a ∧
      (⟨[(0, .num (.float 0)), (1, .num (.float 0))]⟩ :
        LineGraph).get 0 = .ok a) := by
  have hlerp : (LineGraph.init []).lerp (LineGraph.init []) 0 =
      .ok ⟨[(0, .num (.float 0)), (1, .num (.float 0))]⟩ := by
    norm_num [LineGraph.lerp, lerpLoop, LineGraph.get, LineGraph.set,
      LineGraph.point_locations, LineGraph.init, dictOfEntries, insertDefault, keysOf,
      setKey, lookupKey, getLoop, Value.lerp, scalarLerp,
      List.insertionSort, List.orderedInsert, List.foldl,
      bind_ok_eq, bind_error_eq]
  have hwf : ∀ kv ∈ (LineGraph.init []).points, Value.wf kv.2 := by
    rw [init_nil_points]
    intro kv hkv
    simp at hkv
    rcases hkv with rfl | rfl <;> trivial
  have hC3 := C3_graph_lerp (LineGraph.init []) (LineGraph.init []) 0 _
    (mem_keysOf_init_zero []) (mem_keysOf_init_one []) hlerp
  exact ⟨hlerp, hC3.1,
    hC3.2.2.1 rfl hwf 0 (Or.inl (mem_keysOf_init_zero []))⟩

theorem resolveLoop_ok (parameters : LineGraph) (denom : ℚ) :
    ∀ (L : List ℕ) (r : List Value),
    resolveLoop parameters denom L = .ok r →
    r.length = L.length ∧
    ∀ j : ℕ, j < L.length →
      parameters.get (((L.getD j 0 : ℕ) : ℚ) / denom) =
        .ok (r.getD j (.num (.float 0))) := by
  intro L
  induction L with
  | nil =>
      intro r h
      obtain rfl : ([] : List Value) = r := by simpa [resolveLoop] using h
      exact ⟨rfl, fun j hj => absurd hj (by simp)⟩
  | cons i rest ih =>
      intro r h
      simp only [resolveLoop] at h
      cases hg : parameters.get ((i : ℚ) / denom) with
      | error e =>
          simp only [hg, bind_error_eq] at h
          exact Except.noConfusion h
      | ok v =>
          simp only [hg, bind_ok_eq] at h
          cases hr : resolveLoop parameters denom rest with
          | error e =>
              simp only [hr, bind_error_eq] at h
              exact Except.noConfusion h
          | ok vs =>
              simp only [hr, bind_ok_eq] at h
              obtain rfl : v :: vs = r := Except.ok.inj h
              obtain ⟨hlen, hval⟩ := ih vs hr
              refine ⟨by simp [hlen], ?_⟩
              intro j hj
              cases j with
              | zero => simpa using hg
              | succ j1 =>
                  have hj1 : j1 < rest.length := by simpa using hj
                  simpa using hval j1 hj1

theorem samplePositions_length (count : ℕ) :
    (samplePositions count).length = count := by
  unfold samplePositions
  rw [List.length_map, List.length_range]

theorem samplePositions_getD (count i : ℕ) (hi : i < count) :
    (samplePositions count).getD i 0 =
      (i : ℚ) / ((max ((count : ℤ) - 1) 1 : ℤ) : ℚ) := by
  unfold samplePositions
  rw [List.getD_eq_getElem?_getD, List.getElem?_map, List.getElem?_range hi]
  simp

theorem maxDenom_pos (count : ℕ) :
    (0 : ℚ) < ((max ((count : ℤ) - 1) 1 : ℤ) : ℚ) := by
  have h1 : (0 : ℤ) < max ((count : ℤ) - 1) 1 :=
    lt_of_lt_of_le zero_lt_one (le_max_right _ _)
  exact_mod_cast h1

/-- C4: the sampling driver queries the graph at normalized position
`p_i = i / max(N - 1, 1)` for each 0-based anchor index `i` of `N`:
`p_0 = 0` always, `p_(N-1) = 1` when `N > 1`, the positions strictly
increase with `i`, and an anchor count of `1` resolves exactly one
record at position `0` (the `max` keeps the denominator `1`, so no
division by zero arises). -/
theorem C4_sampling {A : Type} (selection : List A) (g : LineGraph)
    (hN : 1 ≤ selection.length) :
    ((samplePositions selection.length).length = selection.length) ∧
    (∀ i : ℕ, i < selection.length →
      (samplePositions selection.length).getD i 0 =
        (i : ℚ) / ((max ((selection.length : ℤ) - 1) 1 : ℤ) : ℚ)) ∧
    ((samplePositions selection.length).getD 0 0 = 0) ∧
    (1 < selection.length →
      (samplePositions selection.length).getD (selection.length - 1) 0
        = 1) ∧
    (∀ i j : ℕ, i < j → j < selection.length →
      (samplePositions selection.length).getD i 0 <
        (samplePositions selection.length).getD j 0) ∧
    (selection.length = 1 → samplePositions selection.length = [0] ∧
      make_barb_curves selection g = (g.get 0).map (fun v => [v])) ∧
    (∀ r, make_barb_curves selection g = .ok r →
      r.length = selection.length ∧
      ∀ i : ℕ, i < selection.length →
        g.get ((i : ℚ) /
            ((max ((selection.length : ℤ) - 1) 1 : ℤ) : ℚ)) =
          .ok (r.getD i (.num (.float 0)))) := by
  refine ⟨samplePositions_length _, fun i hi => samplePositions_getD _ i hi,
    ?_, ?_, ?_, ?_, ?_⟩
  · rw [samplePositions_getD _ 0 (lt_of_lt_of_le zero_lt_one hN)]
    simp
  · intro h2
    have hge : (1 : ℤ) ≤ (selection.length : ℤ) - 1 := by omega
    rw [samplePositions_getD _ _ (by omega), max_eq_left hge]
    have hcast : ((selection.length - 1 : ℕ) : ℚ) =
        (((selection.length : ℤ) - 1 : ℤ) : ℚ) := by
      push_cast [Nat.cast_sub (by omega : 1 ≤ selection.length)]
      ring
    rw [hcast, div_self]
    exact Int.cast_ne_zero.mpr (by omega)
  · intro i j hij hj
    rw [samplePositions_getD _ i (hij.trans hj), samplePositions_getD _ j hj]
    exact (div_lt_div_iff_of_pos_right (maxDenom_pos _)).mpr
      (by exact_mod_cast hij)
  · intro h1
    constructor
    · rw [h1]
      norm_num [samplePositions, List.range_succ, List.range_zero]
    · have hdef : make_barb_curves selection g =
          resolveLoop g ((max ((selection.length : ℤ) - 1) 1 : ℤ) : ℚ)
            (List.range selection.length) := rfl
      rw [hdef, h1]
      norm_num [List.range_succ, List.range_zero]
      cases hg : g.get 0 <;>
        simp [resolveLoop, hg, bind_ok_eq, bind_error_eq, Except.map]
  · intro r hr
    have hdef : resolveLoop g
        ((max ((selection.length : ℤ) - 1) 1 : ℤ) : ℚ)
        (List.range selection.length) = .ok r := hr
    obtain ⟨hlen, hval⟩ := resolveLoop_ok g _ _ r hdef
    refine ⟨by simpa using hlen, ?_⟩
    intro i hi
    have := hval i (by simpa using hi)
    rwa [List.getD_eq_getElem?_getD, List.getElem?_range hi] at this

/-- Witness for C4 on three anchors over the default graph: positions
are `[0, 1/2, 1]`, and the driver resolves three records, the first at
position `0`. -/
theorem C4_witness :
    (samplePositions (3 : ℕ) = [0, 1/2, 1] ∧
      (samplePositions ([10, 20, 30] : List ℕ).length).getD 0 0 = 0 ∧
      (samplePositions ([10, 20, 30] : List ℕ).length).getD
        (([10, 20, 30] : List ℕ).length - 1) 0 = 1) := by
  have h := C4_sampling ([10, 20, 30] : List ℕ) (LineGraph.init [])
    (by norm_num)
  refine ⟨?_, h.2.2.1, h.2.2.2.1 (by norm_num)⟩
  norm_num [samplePositions, List.range_succ, List.range_zero]

/-- C5 counterexample: a position strictly below `0` does not make
`get` fail — the scan's very first pair already satisfies
`high ≥ position`, so the code extrapolates from the two lowest keys.
On the graph `{0: 0.0, 1: 10.0}` the call `get(-1/2)` returns `-5.0`
instead of raising. -/
theorem C5_counterexample :
    (-(1/2) : ℚ) < 0 ∧
    (LineGraph.init [(1, .num (.float 10))]).get (-(1/2)) =
      .ok (.num (.float (-5))) := by
  constructor
  · norm_num
  · norm_num [LineGraph.get, LineGraph.init, LineGraph.point_locations,
      insertDefault, keysOf, setKey, lookupKey, getLoop, Value.lerp,
      scalarLerp, List.insertionSort, List.orderedInsert, List.foldl]

/-- C5 (amended): `get` fails with the graph's `KeyError` for positions
strictly above every key (in particular above `1`, given the invariant
that all keys are `≤ 1`); for positions below `0` it does not fail but
extrapolates from the two lowest keys, as the counterexample shows. -/
theorem C5_amended_get_above_fails (g : LineGraph) (p : ℚ)
    (hk : ∀ k ∈ keysOf g.points, k ≤ 1) (hp : 1 < p) :
    g.get p = .error .keyError := by
  have hnk : p ∉ keysOf g.points := fun hmem =>
    absurd (hk p hmem) (not_le.mpr hp)
  rw [get_eq_of_lookup_none g p ((lookupKey_eq_none_iff _ _).mpr hnk)]
  apply getLoop_all_lt
  intro k hkmem
  exact lt_of_le_of_lt (hk k ((mem_point_locations g k).mp hkmem)) hp

/-- Witness for the amended C5: the default graph raises `KeyError`
at position `2`. -/
theorem C5_witness :
    (LineGraph.init []).get 2 = .error .keyError := by
  apply C5_amended_get_above_fails
  · intro k hk
    rw [init_nil_points] at hk
    simp [keysOf] at hk
    rcases hk with rfl | rfl <;> norm_num
  · norm_num

/-- C6: `set(k, v)` succeeds for `k ∈ [0, 1]` and an immediately
following `get(k)` returns exactly the stored `v` — the exact-key
branch of `get` fires, with no interpolation and no change to the
value. -/
theorem C6_set_then_get (g : LineGraph) (k : ℚ) (v : Value)
    (h0 : 0 ≤ k) (h1 : k ≤ 1) :
    g.set k v = .ok ⟨setKey g.points k v⟩ ∧
    (⟨setKey g.points k v⟩ : LineGraph).get k = .ok v := by
  refine ⟨set_ok_of_range g k v h0 h1, ?_⟩
  exact get_eq_of_lookup_some _ k v (lookupKey_setKey_self g.points k v)

/-- Witness for C6 at `k = 1/3`, `v = 99.0` on the default graph. -/
theorem C6_witness :
    (LineGraph.init []).set (1/3) (.num (.float 99)) =
      .ok ⟨setKey (LineGraph.init []).points (1/3) (.num (.float 99))⟩ ∧
    (⟨setKey (LineGraph.init []).points (1/3) (.num (.float 99))⟩ :
      LineGraph).get (1/3) = .ok (.num (.float 99)) :=
  C6_set_then_get (LineGraph.init []) (1/3) (.num (.float 99))
    (by norm_num) (by norm_num)

/-- C7: the record constructor clamps `position` into `[0, 1]` by
min/max clamping: numerically the stored position is
`max 0 (min p 1)`; object-wise, `sorted([0, float(p), 1])[1]` stores
the int literal `0` for inputs below `0` and the int literal `1` for
inputs above `1` (numerically equal to `0.0` / `1.0`), and the coerced
float unchanged for in-range inputs — so the stored position always
lies in `[0, 1]`. -/
theorem C7_position_clamped (p len sa ea : PyNum) :
    (BarbParameters.make p len sa ea).position.toFloat =
      max 0 (min p.toFloat 1) ∧
    (p.toFloat < 0 →
      (BarbParameters.make p len sa ea).position = .int 0 ∧
      (BarbParameters.make p len sa ea).position.toFloat = 0) ∧
    (1 < p.toFloat →
      (BarbParameters.make p len sa ea).position = .int 1 ∧
      (BarbParameters.make p len sa ea).position.toFloat = 1) ∧
    (0 ≤ p.toFloat → p.toFloat ≤ 1 →
      (BarbParameters.make p len sa ea).position = .float p.toFloat) ∧
    (0 ≤ (BarbParameters.make p len sa ea).position.toFloat ∧
      (BarbParameters.make p len sa ea).position.toFloat ≤ 1) := by
  have hpos : (BarbParameters.make p len sa ea).position =
      clampMedian p.toFloat := rfl
  refine ⟨?_, ?_, ?_, ?_, ?_⟩
  · rw [hpos, clampMedian_toFloat]
  · intro h
    rw [hpos, clampMedian_lt_zero _ h]
    exact ⟨rfl, by norm_num [PyNum.toFloat]⟩
  · intro h
    rw [hpos, clampMedian_gt_one _ h]
    exact ⟨rfl, by norm_num [PyNum.toFloat]⟩
  · intro h0 h1
    rw [hpos, clampMedian_of_mem _ h0 h1]
  · rw [hpos, clampMedian_toFloat]
    exact ⟨le_max_left _ _, max_le zero_le_one (min_le_right _ _)⟩

/-- Witness for C7: `position = -0.5` is stored as the int `0`
(numerically `0.0`) and `position = 1.5` as the int `1` (numerically
`1.0`). -/
theorem C7_witness :
    (BarbParameters.make (.float (-(1/2))) (.float 1) (.float 0)
      (.float 0)).position = .int 0 ∧
    (BarbParameters.make (.float (-(1/2))) (.float 1) (.float 0)
      (.float 0)).position.toFloat = 0 ∧
    (BarbParameters.make (.float (3/2)) (.float 1) (.float 0)
      (.float 0)).position = .int 1 ∧
    (BarbParameters.make (.float (3/2)) (.float 1) (.float 0)
      (.float 0)).position.toFloat = 1 := by
  obtain ⟨h1, h2⟩ := (C7_position_clamped (.float (-(1/2))) (.float 1)
    (.float 0) (.float 0)).2.1 (by norm_num [PyNum.toFloat])
  obtain ⟨h3, h4⟩ := (C7_position_clamped (.float (3/2)) (.float 1)
    (.float 0) (.float 0)).2.2.1 (by norm_num [PyNum.toFloat])
  exact ⟨h1, h2, h3, h4⟩

/-- C8 counterexample: record `lerp` does not always blend the fields
and return a new record.  A record constructed with `position = -0.5`
stores the *int* `0` as its position (the median of the Python list
`[0, -0.5, 1]` is the int literal `0`), and blending it — float
angles notwithstanding — raises `AttributeError` at the position
blend, because the int has no `lerp` method. -/
theorem C8_counterexample :
    (BarbParameters.make (.float (-(1/2))) (.float 1) (.float 0)
      (.float 0)).start_angle = .float 0 ∧
    (BarbParameters.make (.float (-(1/2))) (.float 1) (.float 0)
      (.float 0)).end_angle = .float 0 ∧
    BarbParameters.lerp
      (BarbParameters.make (.float (-(1/2))) (.float 1) (.float 0)
        (.float 0))
      (BarbParameters.make (.float 1) (.float 3) (.float 20)
        (.float 30)) (1/2) = .error .attributeError := by
  refine ⟨rfl, rfl, ?_⟩
  norm_num [BarbParameters.lerp, BarbParameters.make, clampMedian,
    PyNum.toFloat, PyNum.lerp, List.insertionSort, List.orderedInsert,
    bind_ok_eq, bind_error_eq, scalarLerp]

/-- C8 (amended): record `lerp` blends each of the four fields by the
Scalar formula and returns a new record built through the constructor
(which re-clamps the blended position), for records whose position and
angle fields are all floats — positions are floats exactly when the
constructor input was within `[0, 1]`; an out-of-range input is
clamped to an int and blending then raises, as the counterexample
shows. -/
theorem C8_record_lerp (A B : BarbParameters) (t pa pb xa ya xb yb : ℚ)
    (hpa : A.position = .float pa) (hpb : B.position = .float pb)
    (hA1 : A.start_angle = .float xa) (hB1 : B.start_angle = .float ya)
    (hA2 : A.end_angle = .float xb) (hB2 : B.end_angle = .float yb) :
    A.lerp B t = .ok (BarbParameters.make
      (.float (scalarLerp pa pb t))
      (.float (scalarLerp A.length B.length t))
      (.float (scalarLerp xa ya t)) (.float (scalarLerp xb yb t))) := by
  unfold BarbParameters.lerp
  rw [hpa, hpb, hA1, hB1, hA2, hB2]
  simp [PyNum.lerp, bind_ok_eq]

/-- Witness for C8 at Scenario C: `A(0, 1, 0, 10)`, `B(1, 3, 20, 30)`,
`A.lerp(B, 0.5) = (0.5, 2.0, 10.0, 20.0)` (all fields floats). -/
theorem C8_witness :
    BarbParameters.lerp
      (BarbParameters.make (.float 0) (.float 1) (.float 0) (.float 10))
      (BarbParameters.make (.float 1) (.float 3) (.float 20) (.float 30))
      (1/2) =
    .ok ⟨.float (1/2), 2, .float 10, .float 20⟩ := by
  rw [C8_record_lerp _ _ (1/2) 0 1 0 20 10 30
    (clampMedian_of_mem 0 le_rfl zero_le_one)
    (clampMedian_of_mem 1 zero_le_one le_rfl)
    rfl rfl rfl rfl]
  norm_num [BarbParameters.make, PyNum.toFloat, scalarLerp, clampMedian,
    List.insertionSort, List.orderedInsert]

/-- C9: the driver's resolved record sequence depends on nothing but
the anchor count and the graph — two anchor lists of the same length
(over arbitrary element types) resolve to the identical sequence. -/
theorem C9_deterministic {A B : Type} (sel1 : List A) (sel2 : List B)
    (g : LineGraph) (h : sel1.length = sel2.length) :
    make_barb_curves sel1 g = make_barb_curves sel2 g := by
  unfold make_barb_curves
  rw [h]

/-- Witness for C9: two different two-anchor selections resolve
identically over the default graph. -/
theorem C9_witness :
    make_barb_curves ([0, 1] : List ℕ) (LineGraph.init []) =
      make_barb_curves [true, false] (LineGraph.init []) :=
  C9_deterministic [0, 1] [true, false] (LineGraph.init []) rfl

/-- C10 (implicit): the record constructor passes `position` and
`length` through `float(...)` (the clamp then stores the coerced float
or a clamped int) but stores the angles exactly as given; the
module-level `lerp` takes the scalar branch only when both operands
are floats and otherwise calls `a.lerp(b, t)` — an `AttributeError`
on numbers, a delegation to the record lerp on records — so a record
whose stored `start_angle` is an int makes record `lerp` fail with an
`AttributeError` (whether the position blend fails first or the angle
blend does, the exception is the same). -/
theorem C10_int_angle_fails (p len sa ea : PyNum) (n : ℤ) (b : PyNum)
    (t : ℚ) (A B : BarbParameters) :
    ((BarbParameters.make p len sa ea).position =
      clampMedian p.toFloat ∧
     (BarbParameters.make p len sa ea).length = len.toFloat ∧
     (BarbParameters.make p len sa ea).start_angle = sa ∧
     (BarbParameters.make p len sa ea).end_angle = ea) ∧
    (∀ x y t1, PyNum.lerp (.float x) (.float y) t1 =
      .ok (.float (scalarLerp x y t1))) ∧
    (PyNum.lerp (.int n) b t = .error .attributeError) ∧
    (∀ x, PyNum.lerp (.float x) (.int n) t = .error .attributeError) ∧
    (Value.lerp (.barb A) (.barb B) t =
      (BarbParameters.lerp A B t).map Value.barb) ∧
    (A.start_angle = .int n → A.lerp B t = .error .attributeError) := by
  refine ⟨⟨rfl, rfl, rfl, rfl⟩, fun x y t1 => rfl, ?_, fun x => rfl,
    rfl, ?_⟩
  · cases b <;> rfl
  · intro hA
    unfold BarbParameters.lerp
    cases hp : PyNum.lerp A.position B.position t with
    | error e =>
        rw [bind_error_eq, pyNumLerp_error_inv _ _ _ _ hp]
    | ok pv =>
        simp only [bind_ok_eq, PyNum.lerp, hA]
        cases hBs : B.start_angle <;> rfl

/-- Witness for C10: two records built with in-range positions and int
angles fail to blend with an `AttributeError`. -/
theorem C10_witness :
    BarbParameters.lerp
      (BarbParameters.make (.float 0) (.float 1) (.int 5) (.int 10))
      (BarbParameters.make (.float 1) (.float 2) (.int 20) (.int 30))
      (1/2) = .error .attributeError :=
  (C10_int_angle_fails (.float 0) (.float 1) (.int 5) (.int 10) 5
    (.int 0) (1/2)
    (BarbParameters.make (.float 0) (.float 1) (.int 5) (.int 10))
    (BarbParameters.make (.float 1) (.float 2) (.int 20)
      (.int 30))).2.2.2.2.2 rfl
